import Mathlib

/-!
# registrator: the scheduler of `main.go`

A shallow embedding of `Scheduler.scheduleRequest` (the HTTP handler that
enqueues a request) and of `Scheduler.processRequests` (the polling loop that
sends the requests that are due), followed by the properties of the pending
store and of the dispatch loop.

What the Go program gets from outside is made explicit:

* the standard library and the network are the fields of `Env`;
* the result of `time.LoadLocation("Europe/Amsterdam")` and the reading of
  `time.Now()` are arguments of the operation that asks for them;
* everything the program does to the outside (sleeping, taking and releasing
  `s.Lock`, logging, calling `client.Do`, writing an HTTP response) is
  appended to a trace of events, in program order.
-/

namespace Registrator

/-! ## Data model -/

deriving instance DecidableEq for Except

/-- Go's `url.Values` (`map[string][]string`), as an association list. -/
abbrev Values := List (String × List String)

/-- Go's `*time.Location`. -/
structure Location where
  name : String
deriving DecidableEq, Repr

/-- Go's `time.Time`: an instant (nanoseconds since the Unix epoch) and the
location it is presented in. -/
structure Time where
  unixNano : Int
  loc : Location
deriving DecidableEq, Repr

/-- `t.After(u)`: the instant of `t` is after the instant of `u`. -/
def Time.After (t u : Time) : Bool := decide (t.unixNano > u.unixNano)

/-- `t.Equal(u)`: same instant, whatever the locations. -/
def Time.Equal (t u : Time) : Bool := decide (t.unixNano = u.unixNano)

/-- `t.In(loc)`: same instant, presented in `loc`. -/
def Time.In (t : Time) (loc : Location) : Time := { t with loc := loc }

/-- The struct `Request` of `main.go`. -/
structure Request where
  Data : Values
  ScheduleAt : Time
deriving DecidableEq, Repr

/-- The struct `Scheduler` of `main.go`; its `Lock` shows in the trace as the
events `lock` and `unlock`. -/
structure Scheduler where
  Requests : List Request
deriving DecidableEq, Repr

/-- An outgoing `*http.Request`. -/
structure HttpRequest where
  method : String
  url : String
  body : String
  header : List (String × String)
deriving DecidableEq, Repr

/-- An `*http.Response` returned by `client.Do`. -/
structure HttpResponse where
  statusCode : Nat
deriving DecidableEq, Repr

/-- What a handler wrote to its `http.ResponseWriter`. -/
structure HttpOut where
  status : Nat
  body : String
deriving DecidableEq, Repr

/-- The incoming `*http.Request` as the handler reads it: the error returned by
`r.ParseForm()` and the two maps that call fills in. `ParseForm` keeps the
fields it could read when it returns an error (a bad escape in one field does
not empty the maps), so the maps are there in both cases; `Form` holds the
fields of the body and of the URL query, `PostForm` those of the body. -/
structure HttpIn where
  parseFormErr : Option String
  Form : Values
  PostForm : Values
deriving DecidableEq, Repr

/-- The effects of the program, in program order. The `item` of a `send` is the
stored request the call to `client.Do` was made for. -/
inductive Event where
  | sleep
  | lock
  | unlock
  | log (msg : String)
  | send (item : Request) (req : HttpRequest)
  | respond (out : HttpOut)
deriving DecidableEq, Repr

/-- The standard library and the network, over a state `W` of the outside world.

* `encode` is `url.Values.Encode`;
* `newRequestErr method url` is the error of `http.NewRequest(method, url, body)`
  (`none` for a nil error); the library validates the method and parses the URL
  and does not look at the body;
* `parseInLocation` is `time.ParseInLocation`;
* `clientDo` is `(&http.Client{}).Do`: any response or error, depending on the
  request and on the state of the world, which it may change. -/
structure Env (W : Type) where
  encode : Values → String
  newRequestErr : String → String → Option String
  parseInLocation : String → String → Location → Except String Time
  clientDo : W → HttpRequest → Except String HttpResponse × W

/-- The state of the running program: the scheduler, the outside world, the
trace so far, and the response bodies whose `Close` has been deferred. -/
structure Sys (W : Type) where
  s : Scheduler
  world : W
  trace : List Event
  deferred : List HttpResponse

/-- The program right after `scheduler := Scheduler{}`. -/
def Sys.init {W : Type} (w : W) : Sys W :=
  { s := { Requests := [] }, world := w, trace := [], deferred := [] }

/-! ## `scheduleRequest` -/

/-- `r.FormValue(key)` once the form is parsed: the first value of the key in
`r.Form`, or the empty string. -/
def formValue (form : Values) (key : String) : String :=
  match form.lookup key with
  | some (v :: _) => v
  | _ => ""

/-- The layout given to `time.ParseInLocation`. -/
def layout : String := "2006-01-02 15:04:05"

/-- The handler `Scheduler.scheduleRequest`; `zone` is what
`time.LoadLocation("Europe/Amsterdam")` returns for this call. -/
def scheduleRequest {W : Type} (env : Env W) (zone : Except String Location)
    (r : HttpIn) (st : Sys W) : Sys W :=
  match r.parseFormErr with
  | some err =>
    { st with trace := st.trace ++
        [.log ("Failed to parse form: " ++ err),
         .respond { status := 500, body := "Internal Server Error\n" }] }
  | none =>
    let data := r.PostForm
    let scheduleTime := formValue r.Form "schedule_time"
    match zone with
    | .error err =>
      { st with trace := st.trace ++
          [.log ("Failed to load location: " ++ err),
           .respond { status := 500, body := "Internal Server Error\n" }] }
    | .ok loc =>
      match env.parseInLocation layout scheduleTime loc with
      | .error err =>
        { st with trace := st.trace ++
            [.log ("Failed to parse schedule time: " ++ err),
             .respond { status := 400, body := "Invalid schedule time\n" }] }
      | .ok scheduleAt =>
        let newReq : Request := { Data := data, ScheduleAt := scheduleAt }
        { st with
            s := { Requests := st.s.Requests ++ [newReq] }
            trace := st.trace ++
              [.lock, .unlock,
               .respond { status := 200, body := "Request scheduled successfully\n" }] }

/-! ## `processRequests` -/

/-- The endpoint the requests are posted to. -/
def endpoint : String := "https://magisrent.nl/interestlist"

/-- `http.NewRequest(method, url, body)`. -/
def newRequest {W : Type} (env : Env W) (method url body : String) :
    Except String HttpRequest :=
  match env.newRequestErr method url with
  | some err => .error err
  | none => .ok { method := method, url := url, body := body, header := [] }

/-- `req.Header.Set(key, value)`. -/
def HttpRequest.setHeader (req : HttpRequest) (key value : String) : HttpRequest :=
  { req with header := (req.header.filter (fun kv => kv.1 != key)) ++ [(key, value)] }

/-- The local variables of the `for _, req := range s.Requests` loop: the slice
`requests` being built, and the effects so far. -/
structure Scan (W : Type) where
  requests : List Request
  world : W
  trace : List Event
  deferred : List HttpResponse

/-- One pass through the body of `for _, req := range s.Requests`. -/
def rangeBody {W : Type} (env : Env W) (now : Time) (acc : Scan W) (req : Request) :
    Scan W :=
  if now.After req.ScheduleAt || now.Equal req.ScheduleAt then
    match newRequest env "POST" endpoint (env.encode req.Data) with
    | .error err =>
      { acc with trace := acc.trace ++ [.log ("Failed to create request: " ++ err)] }
    | .ok httpReq =>
      let httpReq := httpReq.setHeader "Referer" "https://magisrent.nl/interestlist?building=MRX"
      let httpReq := httpReq.setHeader "Origin" "https://magisrent.nl"
      let httpReq := httpReq.setHeader "Content-Type" "application/x-www-form-urlencoded"
      let httpReq := httpReq.setHeader "Accept"
        "text/html,application/xhtml+xml,application/xml;q=0.9,*/*;q=0.8"
      let httpReq := httpReq.setHeader "User-Agent"
        "Mozilla/5.0 (Macintosh; Intel Mac OS X 10_15_7) AppleWebKit/605.1.15 (KHTML, like Gecko) Version/16.3 Safari/605.1.15"
      match env.clientDo acc.world httpReq with
      | (.error err, w) =>
        { acc with
            world := w
            trace := acc.trace ++ [.send req httpReq, .log ("Request failed: " ++ err)] }
      | (.ok resp, w) =>
        { acc with
            world := w
            trace := acc.trace ++ [.send req httpReq, .log "Request sent successfully"]
            deferred := resp :: acc.deferred }
  else
    { acc with requests := acc.requests ++ [req] }

/-- The whole `for _, req := range s.Requests` loop. -/
def scan {W : Type} (env : Env W) (now : Time) (reqs : List Request) (acc : Scan W) :
    Scan W :=
  reqs.foldl (rangeBody env now) acc

/-- One iteration of the `for` loop of `Scheduler.processRequests`; `zone` is
what `time.LoadLocation("Europe/Amsterdam")` returns in this iteration and
`clock` is the reading of `time.Now()`. -/
def iteration {W : Type} (env : Env W) (zone : Except String Location) (clock : Time)
    (st : Sys W) : Sys W :=
  let st : Sys W := { st with trace := st.trace ++ [Event.sleep] }
  match zone with
  | .error err =>
    { st with trace := st.trace ++ [Event.log ("Failed to load location: " ++ err)] }
  | .ok loc =>
    let now := clock.In loc
    let acc := scan env now st.s.Requests
      { requests := [], world := st.world, trace := st.trace ++ [.lock],
        deferred := st.deferred }
    { s := { Requests := acc.requests }, world := acc.world,
      trace := acc.trace ++ [.unlock], deferred := acc.deferred }

/-- A dispatch tick: a loop iteration in which the zone resolves. -/
def tick {W : Type} (env : Env W) (loc : Location) (clock : Time) (st : Sys W) : Sys W :=
  iteration env (.ok loc) clock st

/-- The first iterations of the loop, one for each pair of a zone result and a
clock reading. -/
def loop {W : Type} (env : Env W) (ticks : List (Except String Location × Time))
    (st : Sys W) : Sys W :=
  ticks.foldl (fun acc zc => iteration env zc.1 zc.2 acc) st

/-! ## Reading a trace -/

/-- The events produced between a state and a later state of the same run. -/
def produced {W : Type} (st later : Sys W) : List Event :=
  later.trace.drop st.trace.length

/-- The calls to `client.Do` of a trace, each with the stored request it was
made for. -/
def sends : List Event → List (Request × HttpRequest)
  | [] => []
  | .send item req :: es => (item, req) :: sends es
  | _ :: es => sends es

/-- The stored requests for which `client.Do` was called, in call order. -/
def sentItems (es : List Event) : List Request := (sends es).map Prod.fst

/-- The number of requests the handler accepted (answers with status 200). -/
def accepted : List Event → Nat
  | [] => 0
  | .respond out :: es => (if out.status = 200 then 1 else 0) + accepted es
  | _ :: es => accepted es

/-- The responses the handler wrote. -/
def responses : List Event → List HttpOut
  | [] => []
  | .respond out :: es => out :: responses es
  | _ :: es => responses es

/-- An event that is neither `lock` nor `unlock`. -/
def Event.lockFree : Event → Bool
  | .lock => false
  | .unlock => false
  | _ => true

/-- Whether no `send` of the trace happens between a `lock` and the next
`unlock`; `held` tells whether the lock is held where the trace starts. -/
def noSendUnderLock : Bool → List Event → Bool
  | _, [] => true
  | _, .lock :: es => noSendUnderLock true es
  | _, .unlock :: es => noSendUnderLock false es
  | held, .send _ _ :: es => !held && noSendUnderLock held es
  | held, _ :: es => noSendUnderLock held es

/-- Whether every `send` of the trace happens between a `lock` and the next
`unlock`. -/
def allSendsUnderLock : Bool → List Event → Bool
  | _, [] => true
  | _, .lock :: es => allSendsUnderLock true es
  | _, .unlock :: es => allSendsUnderLock false es
  | held, .send _ _ :: es => held && allSendsUnderLock held es
  | held, _ :: es => allSendsUnderLock held es

/-- The request the program posts for a stored request: method, endpoint, the
encoded form as body, and the five headers in the order they are set. -/
def posted {W : Type} (env : Env W) (item : Request) : HttpRequest :=
  { method := "POST"
    url := "https://magisrent.nl/interestlist"
    body := env.encode item.Data
    header :=
      [("Referer", "https://magisrent.nl/interestlist?building=MRX"),
       ("Origin", "https://magisrent.nl"),
       ("Content-Type", "application/x-www-form-urlencoded"),
       ("Accept", "text/html,application/xhtml+xml,application/xml;q=0.9,*/*;q=0.8"),
       ("User-Agent",
        "Mozilla/5.0 (Macintosh; Intel Mac OS X 10_15_7) AppleWebKit/605.1.15 (KHTML, like Gecko) Version/16.3 Safari/605.1.15")] }

/-- Is the request due at `clock`: its `ScheduleAt` is not after `clock`. -/
def due (clock : Time) (r : Request) : Bool :=
  decide (r.ScheduleAt.unixNano ≤ clock.unixNano)

/-- The sends one stored request adds to the trace of an iteration: one, for the
request posted for it, when it is due and `http.NewRequest` gives no error. -/
def sendsOf {W : Type} (env : Env W) (clock : Time) (r : Request) :
    List (Request × HttpRequest) :=
  if due clock r && (env.newRequestErr "POST" endpoint).isNone then [(r, posted env r)] else []

/-- The same library over another network: only `client.Do` is replaced. -/
def Env.withClient {W V : Type} (env : Env W)
    (f : V → HttpRequest → Except String HttpResponse × V) : Env V :=
  { encode := env.encode, newRequestErr := env.newRequestErr,
    parseInLocation := env.parseInLocation, clientDo := f }

/-- The same program state in another outside world. -/
def Sys.withWorld {W V : Type} (st : Sys W) (v : V) : Sys V :=
  { s := st.s, world := v, trace := st.trace, deferred := st.deferred }

/-! ## Runs of the program -/

/-- What happens to the program: a request reaches the handler, or the loop
makes one more iteration. The handler appends under `s.Lock` and an iteration
holds `s.Lock` from before its scan until it has replaced `s.Requests`, so the
two kinds of step follow one another. -/
inductive Op where
  | enqueue (zone : Except String Location) (r : HttpIn)
  | iterate (zone : Except String Location) (clock : Time)

/-- One step of the program. -/
def step {W : Type} (env : Env W) (st : Sys W) : Op → Sys W
  | .enqueue zone r => scheduleRequest env zone r st
  | .iterate zone clock => iteration env zone clock st

/-- A finite run of the program. -/
def run {W : Type} (env : Env W) (ops : List Op) (st : Sys W) : Sys W :=
  ops.foldl (step env) st

/-- Is the step a call of the handler. -/
def Op.isEnqueue : Op → Bool
  | .enqueue _ _ => true
  | .iterate _ _ => false

/-- The request a step appends to the store, if any. -/
def enqueuedBy {W : Type} (env : Env W) : Op → List Request
  | .enqueue zone r =>
    match r.parseFormErr, zone with
    | none, .ok loc =>
      match env.parseInLocation layout (formValue r.Form "schedule_time") loc with
      | .ok t => [{ Data := r.PostForm, ScheduleAt := t }]
      | .error _ => []
    | _, _ => []
  | .iterate _ _ => []

/-- The store after a step, from the store before. -/
def nextStore {W : Type} (env : Env W) (reqs : List Request) : Op → List Request
  | .enqueue zone r => reqs ++ enqueuedBy env (.enqueue zone r)
  | .iterate (.ok _) clock => reqs.filter (fun r => !due clock r)
  | .iterate (.error _) _ => reqs

/-! ## Concrete inputs -/

/-- A small environment to run the program on: the network fails on every
second call, counted in the state of the world. -/
def demoEnv : Env Nat :=
  { encode := fun v => String.join (v.map (fun kv => kv.1 ++ "=" ++ String.join kv.2 ++ "&"))
    newRequestErr := fun method _ =>
      if method = "" then some "net/http: invalid method" else none
    parseInLocation := fun _ value loc =>
      if value = "2024-01-01 00:00:00" then .ok { unixNano := 1704063600000000000, loc := loc }
      else .error ("cannot parse " ++ value)
    clientDo := fun n _ =>
      (if n % 2 = 0 then .error "connection refused" else .ok { statusCode := 200 }, n + 1) }

/-- An environment in which the network refuses the request posted for the form
`name=a` and answers every other request. -/
def refusingEnv : Env Nat :=
  { demoEnv with
    clientDo := fun n req =>
      (if req.body = "name=a&" then .error "connection refused" else .ok { statusCode := 200 },
       n + 1) }

/-- The zone of the program. -/
def amsterdam : Location := { name := "Europe/Amsterdam" }

/-- A clock reading. -/
def noon : Time := { unixNano := 1704106800000000000, loc := { name := "UTC" } }

/-- A stored request with a one-field form, scheduled `delta` nanoseconds after
`noon`. -/
def demoItem (name : String) (delta : Int) : Request :=
  { Data := [("name", [name])], ScheduleAt := { unixNano := noon.unixNano + delta, loc := amsterdam } }

/-- A program state whose store holds the given requests. -/
def demoSys (reqs : List Request) : Sys Nat :=
  { s := { Requests := reqs }, world := 0, trace := [], deferred := [] }

/-- A request whose form failed to parse although its `schedule_time` came
through and is well formed. -/
def brokenForm : HttpIn :=
  { parseFormErr := some "invalid URL escape %zz"
    Form := [("schedule_time", ["2024-01-01 00:00:00"])]
    PostForm := [("schedule_time", ["2024-01-01 00:00:00"])] }

/-- A request whose form failed to parse and has no `schedule_time`. -/
def brokenEmptyForm : HttpIn :=
  { parseFormErr := some "invalid URL escape %zz", Form := [], PostForm := [] }

/-! ## Lemmas -/

theorem sends_append (xs ys : List Event) : sends (xs ++ ys) = sends xs ++ sends ys := by
  induction xs with
  | nil => rfl
  | cons e es ih => cases e <;> simp [sends, ih]

theorem sentItems_append (xs ys : List Event) :
    sentItems (xs ++ ys) = sentItems xs ++ sentItems ys := by
  simp [sentItems, sends_append]

theorem accepted_append (xs ys : List Event) :
    accepted (xs ++ ys) = accepted xs + accepted ys := by
  induction xs with
  | nil => simp [accepted]
  | cons e es ih => cases e <;> simp [accepted, ih, Nat.add_assoc]

theorem responses_append (xs ys : List Event) :
    responses (xs ++ ys) = responses xs ++ responses ys := by
  induction xs with
  | nil => rfl
  | cons e es ih => cases e <;> simp [responses, ih]

/-- The test of the scan is the inclusive comparison of the instants. -/
theorem test_eq_due (clock : Time) (loc : Location) (r : Request) :
    ((clock.In loc).After r.ScheduleAt || (clock.In loc).Equal r.ScheduleAt) = due clock r := by
  simp only [Time.After, Time.Equal, Time.In, due]
  by_cases h : r.ScheduleAt.unixNano ≤ clock.unixNano
  · rcases lt_or_eq_of_le h with h1 | h1
    · simp [h, h1]
    · simp [h, h1]
  · have h1 : ¬ clock.unixNano > r.ScheduleAt.unixNano := fun h2 => h (le_of_lt h2)
    have h2 : ¬ clock.unixNano = r.ScheduleAt.unixNano := fun h2 => h (le_of_eq h2.symm)
    simp [h, h1, h2]

/-- The request built for a stored request when `http.NewRequest` succeeds. -/
theorem built_eq_posted {W : Type} (env : Env W) (r : Request) :
    (((((({ method := "POST", url := endpoint, body := env.encode r.Data, header := [] } :
      HttpRequest).setHeader "Referer" "https://magisrent.nl/interestlist?building=MRX").setHeader
      "Origin" "https://magisrent.nl").setHeader
      "Content-Type" "application/x-www-form-urlencoded").setHeader "Accept"
      "text/html,application/xhtml+xml,application/xml;q=0.9,*/*;q=0.8").setHeader "User-Agent"
      "Mozilla/5.0 (Macintosh; Intel Mac OS X 10_15_7) AppleWebKit/605.1.15 (KHTML, like Gecko) Version/16.3 Safari/605.1.15")
      = posted env r := by
  simp [HttpRequest.setHeader, posted, endpoint]

/-- What one pass through the loop body does to the slice and to the trace. -/
theorem rangeBody_spec {W : Type} (env : Env W) (clock : Time) (loc : Location)
    (acc : Scan W) (r : Request) :
    (rangeBody env (clock.In loc) acc r).requests
        = acc.requests ++ (if due clock r then [] else [r]) ∧
    ∃ es, (rangeBody env (clock.In loc) acc r).trace = acc.trace ++ es ∧
      sends es = sendsOf env clock r ∧ ∀ e ∈ es, e.lockFree = true := by
  unfold rangeBody sendsOf
  rw [test_eq_due]
  by_cases hd : due clock r = true
  · simp only [hd, if_true, Bool.true_and]
    unfold newRequest
    cases hn : env.newRequestErr "POST" endpoint with
    | some err =>
      refine ⟨by simp, [.log ("Failed to create request: " ++ err)], rfl, by simp [sends], ?_⟩
      intro e he
      simp at he
      subst he
      rfl
    | none =>
      simp only [built_eq_posted]
      cases hc : env.clientDo acc.world (posted env r) with
      | mk res w =>
        cases res with
        | error err =>
          refine ⟨by simp, [.send r (posted env r), .log ("Request failed: " ++ err)], rfl,
            by simp [sends], ?_⟩
          intro e he
          simp at he
          rcases he with he | he <;> subst he <;> rfl
        | ok resp =>
          refine ⟨by simp, [.send r (posted env r), .log "Request sent successfully"], rfl,
            by simp [sends], ?_⟩
          intro e he
          simp at he
          rcases he with he | he <;> subst he <;> rfl
  · have hd2 : due clock r = false := by simpa using hd
    simp only [hd2, Bool.false_and]
    exact ⟨by simp, [], by simp, by simp [sends], by simp⟩

/-- What the scan does to the slice and to the trace. -/
theorem scan_spec {W : Type} (env : Env W) (clock : Time) (loc : Location)
    (reqs : List Request) (acc : Scan W) :
    (scan env (clock.In loc) reqs acc).requests
        = acc.requests ++ reqs.filter (fun r => !due clock r) ∧
    ∃ es, (scan env (clock.In loc) reqs acc).trace = acc.trace ++ es ∧
      sends es = reqs.flatMap (sendsOf env clock) ∧ ∀ e ∈ es, e.lockFree = true := by
  induction reqs generalizing acc with
  | nil => exact ⟨by simp [scan], [], by simp [scan], by simp [sends], by simp⟩
  | cons r rest ih =>
    obtain ⟨h1, es1, h2, h3, h4⟩ := rangeBody_spec env clock loc acc r
    obtain ⟨k1, es2, k2, k3, k4⟩ := ih (rangeBody env (clock.In loc) acc r)
    have hs : scan env (clock.In loc) (r :: rest) acc
        = scan env (clock.In loc) rest (rangeBody env (clock.In loc) acc r) := rfl
    rw [hs]
    refine ⟨?_, es1 ++ es2, ?_, ?_, ?_⟩
    · rw [k1, h1]
      by_cases hd : due clock r = true
      · simp [hd]
      · have hd2 : due clock r = false := by simpa using hd
        simp [hd2]
    · rw [k2, h2, List.append_assoc]
    · rw [sends_append, h3, k3]
      simp [List.flatMap_cons]
    · intro e he
      rcases List.mem_append.mp he with he | he
      · exact h4 e he
      · exact k4 e he

theorem produced_of_append {W : Type} (st later : Sys W) (es : List Event)
    (h : later.trace = st.trace ++ es) : produced st later = es := by
  simp [produced, h]

/-- With no error from `http.NewRequest`, the sends of a scan are those of the
due requests, in order. -/
theorem flatMap_sendsOf {W : Type} (env : Env W) (clock : Time)
    (hnr : env.newRequestErr "POST" endpoint = none) (reqs : List Request) :
    reqs.flatMap (sendsOf env clock)
      = (reqs.filter (due clock)).map (fun r => (r, posted env r)) := by
  induction reqs with
  | nil => rfl
  | cons r rest ih =>
    rw [List.flatMap_cons, ih]
    by_cases hd : due clock r = true
    · simp [sendsOf, hd, hnr]
    · have hd2 : due clock r = false := by simpa using hd
      simp [sendsOf, hd2]

/-- Whatever `http.NewRequest` does, a scan sends only for due requests. -/
theorem mem_flatMap_sendsOf {W : Type} (env : Env W) (clock : Time) (reqs : List Request)
    (p : Request × HttpRequest) (hp : p ∈ reqs.flatMap (sendsOf env clock)) :
    p.1 ∈ reqs ∧ due clock p.1 = true ∧ p.2 = posted env p.1 := by
  obtain ⟨r, hr, hpr⟩ := List.mem_flatMap.mp hp
  unfold sendsOf at hpr
  by_cases hc : (due clock r && (env.newRequestErr "POST" endpoint).isNone) = true
  · rw [if_pos hc] at hpr
    have hp2 : p = (r, posted env r) := by simpa using hpr
    subst hp2
    have hd : due clock r = true := by
      cases h : due clock r
      · rw [h] at hc; simp at hc
      · rfl
    exact ⟨hr, hd, rfl⟩
  · rw [if_neg hc] at hpr
    simp at hpr

/-- What a dispatch tick does: the new store, and the events it produces. -/
theorem tick_spec {W : Type} (env : Env W) (loc : Location) (clock : Time) (st : Sys W) :
    (tick env loc clock st).s.Requests = st.s.Requests.filter (fun r => !due clock r) ∧
    ∃ es, produced st (tick env loc clock st) = .sleep :: .lock :: (es ++ [.unlock]) ∧
      sends es = st.s.Requests.flatMap (sendsOf env clock) ∧
      ∀ e ∈ es, e.lockFree = true := by
  obtain ⟨h1, es, h2, h3, h4⟩ := scan_spec env clock loc st.s.Requests
    { requests := [], world := st.world, trace := (st.trace ++ [.sleep]) ++ [.lock],
      deferred := st.deferred }
  refine ⟨?_, es, ?_, h3, h4⟩
  · simpa [tick, iteration] using h1
  · apply produced_of_append
    simp only [tick, iteration]
    rw [h2]
    simp

/-- The sends a dispatch tick produces. -/
theorem tick_sends {W : Type} (env : Env W) (loc : Location) (clock : Time) (st : Sys W) :
    sends (produced st (tick env loc clock st))
      = st.s.Requests.flatMap (sendsOf env clock) := by
  obtain ⟨_, es, h2, h3, _⟩ := tick_spec env loc clock st
  rw [h2]
  have : (Event.sleep :: Event.lock :: (es ++ [Event.unlock]))
      = [Event.sleep, Event.lock] ++ es ++ [Event.unlock] := by simp
  rw [this, sends_append, sends_append, h3]
  simp [sends]

/-- What an iteration does when the zone does not resolve. -/
theorem iteration_error {W : Type} (env : Env W) (err : String) (clock : Time) (st : Sys W) :
    (iteration env (.error err) clock st).s = st.s ∧
    (iteration env (.error err) clock st).world = st.world ∧
    produced st (iteration env (.error err) clock st)
      = [.sleep, .log ("Failed to load location: " ++ err)] := by
  refine ⟨rfl, rfl, ?_⟩
  apply produced_of_append
  simp [iteration]

theorem due_iff (clock : Time) (r : Request) :
    due clock r = true ↔ r.ScheduleAt.unixNano ≤ clock.unixNano := by
  simp [due]

theorem not_due_iff (clock : Time) (r : Request) :
    (!due clock r) = true ↔ clock.unixNano < r.ScheduleAt.unixNano := by
  simp [due]

/-- What any iteration does to the store and to the trace. -/
theorem iteration_spec {W : Type} (env : Env W) (zone : Except String Location)
    (clock : Time) (st : Sys W) :
    ∃ es, (iteration env zone clock st).trace = st.trace ++ es ∧
      (∀ p ∈ sends es, p.1 ∈ st.s.Requests ∧ due clock p.1 = true) ∧
      (∀ r ∈ st.s.Requests, due clock r = false → r ∈ (iteration env zone clock st).s.Requests) := by
  cases zone with
  | error err =>
    refine ⟨[.sleep, .log ("Failed to load location: " ++ err)], by simp [iteration], ?_, ?_⟩
    · intro p hp
      simp [sends] at hp
    · intro r hr _
      exact hr
  | ok loc =>
    obtain ⟨h1, es, h2, h3, _⟩ := scan_spec env clock loc st.s.Requests
      { requests := [], world := st.world, trace := (st.trace ++ [.sleep]) ++ [.lock],
        deferred := st.deferred }
    refine ⟨[.sleep, .lock] ++ es ++ [.unlock], ?_, ?_, ?_⟩
    · simp only [iteration]
      rw [h2]
      simp
    · intro p hp
      rw [sends_append, sends_append, h3] at hp
      simp only [sends, List.nil_append, List.append_nil] at hp
      obtain ⟨k1, k2, _⟩ := mem_flatMap_sendsOf env clock _ p hp
      exact ⟨k1, k2⟩
    · intro r hr hd
      have : (iteration env (.ok loc) clock st).s.Requests
          = st.s.Requests.filter (fun r => !due clock r) := by
        simpa [iteration] using h1
      rw [this]
      exact List.mem_filter.mpr ⟨hr, by simp [hd]⟩

/-- What a finite number of iterations does to a request that is due at none of
their clock readings. -/
theorem loop_spec {W : Type} (env : Env W) (ticks : List (Except String Location × Time))
    (st : Sys W) :
    ∃ es, (loop env ticks st).trace = st.trace ++ es ∧
      (∀ p ∈ sends es, ∃ zc ∈ ticks, due zc.2 p.1 = true) ∧
      (∀ r ∈ st.s.Requests, (∀ zc ∈ ticks, due zc.2 r = false) →
        r ∈ (loop env ticks st).s.Requests) := by
  induction ticks generalizing st with
  | nil => exact ⟨[], by simp [loop], by simp [sends], fun r hr _ => hr⟩
  | cons zc rest ih =>
    obtain ⟨es1, h1, h2, h3⟩ := iteration_spec env zc.1 zc.2 st
    obtain ⟨es2, k1, k2, k3⟩ := ih (iteration env zc.1 zc.2 st)
    have hl : loop env (zc :: rest) st = loop env rest (iteration env zc.1 zc.2 st) := rfl
    rw [hl]
    refine ⟨es1 ++ es2, by rw [k1, h1, List.append_assoc], ?_, ?_⟩
    · intro p hp
      rw [sends_append] at hp
      rcases List.mem_append.mp hp with hp | hp
      · exact ⟨zc, by simp, (h2 p hp).2⟩
      · obtain ⟨zc2, hz, hd⟩ := k2 p hp
        exact ⟨zc2, List.mem_cons_of_mem _ hz, hd⟩
    · intro r hr hall
      apply k3 r (h3 r hr (hall zc (by simp)))
      intro zc2 hz
      exact hall zc2 (List.mem_cons_of_mem _ hz)

/-- A scan sends nothing when no request of the store is due. -/
theorem flatMap_sendsOf_not_due {W : Type} (env : Env W) (clock : Time) (reqs : List Request)
    (h : ∀ r ∈ reqs, due clock r = false) : reqs.flatMap (sendsOf env clock) = [] := by
  induction reqs with
  | nil => rfl
  | cons r rest ih =>
    rw [List.flatMap_cons, ih (fun x hx => h x (List.mem_cons_of_mem _ hx))]
    simp [sendsOf, h r (by simp)]

/-- The events of two successive stretches of a run. -/
theorem produced_trans {W : Type} (a b c : Sys W) (es1 es2 : List Event)
    (h1 : b.trace = a.trace ++ es1) (h2 : c.trace = b.trace ++ es2) :
    produced a c = produced a b ++ produced b c := by
  rw [produced_of_append a b es1 h1, produced_of_append b c es2 h2]
  apply produced_of_append
  rw [h2, h1, List.append_assoc]

/-- The world after one pass through the loop body depends on the world before
and on nothing else of the local state. -/
theorem rangeBody_world {W : Type} (env : Env W) (now : Time) (acc acc2 : Scan W)
    (r : Request) (h : acc.world = acc2.world) :
    (rangeBody env now acc r).world = (rangeBody env now acc2 r).world := by
  unfold rangeBody
  split
  · split
    · exact h
    · dsimp only
      rw [h]
      split <;> rfl
  · exact h

theorem scan_world {W : Type} (env : Env W) (now : Time) (reqs : List Request)
    (acc acc2 : Scan W) (h : acc.world = acc2.world) :
    (scan env now reqs acc).world = (scan env now reqs acc2).world := by
  induction reqs generalizing acc acc2 with
  | nil => exact h
  | cons r rest ih => exact ih _ _ (rangeBody_world env now acc acc2 r h)

/-- Events that neither take nor release the lock leave it held, and every send
among them is under the lock. -/
theorem allSendsUnderLock_held (es rest : List Event) (h : ∀ e ∈ es, e.lockFree = true) :
    allSendsUnderLock true (es ++ rest) = allSendsUnderLock true rest := by
  induction es with
  | nil => rfl
  | cons e es ih =>
    have ih2 := ih (fun x hx => h x (List.mem_cons_of_mem _ hx))
    have he := h e (by simp)
    cases e <;> simp_all [allSendsUnderLock, Event.lockFree]

/-- Among events that neither take nor release the lock, while it is held, no
send happens under the lock only if there is no send at all. -/
theorem noSendUnderLock_held (es rest : List Event) (h : ∀ e ∈ es, e.lockFree = true) :
    noSendUnderLock true (es ++ rest) = ((sends es).isEmpty && noSendUnderLock true rest) := by
  induction es with
  | nil => simp [sends]
  | cons e es ih =>
    have ih2 := ih (fun x hx => h x (List.mem_cons_of_mem _ hx))
    have he := h e (by simp)
    cases e <;> simp_all [noSendUnderLock, Event.lockFree, sends]

theorem scheduler_eq (a b : Scheduler) (h : a.Requests = b.Requests) : a = b := by
  cases a
  cases b
  simp only at h
  rw [h]

theorem scheduleRequest_spec {W : Type} (env : Env W) (zone : Except String Location)
    (r : HttpIn) (st : Sys W) :
    (scheduleRequest env zone r st).s.Requests
      = st.s.Requests ++ enqueuedBy env (.enqueue zone r) ∧
    sends (scheduleRequest env zone r st).trace = sends st.trace ∧
    accepted (scheduleRequest env zone r st).trace
      = accepted st.trace + (enqueuedBy env (.enqueue zone r)).length := by
  cases hf : r.parseFormErr with
  | some e => simp [scheduleRequest, enqueuedBy, hf, sends_append, accepted_append, sends, accepted]
  | none =>
    cases zone with
    | error e =>
      simp [scheduleRequest, enqueuedBy, hf, sends_append, accepted_append, sends, accepted]
    | ok loc =>
      cases hp : env.parseInLocation layout (formValue r.Form "schedule_time") loc with
      | error e =>
        simp [scheduleRequest, enqueuedBy, hf, hp, sends_append, accepted_append, sends, accepted]
      | ok t =>
        simp [scheduleRequest, enqueuedBy, hf, hp, sends_append, accepted_append, sends, accepted]

theorem rangeBody_accepted {W : Type} (env : Env W) (now : Time) (acc : Scan W) (r : Request) :
    accepted (rangeBody env now acc r).trace = accepted acc.trace := by
  unfold rangeBody
  split
  · split
    · simp [accepted_append, accepted]
    · dsimp only
      split <;> simp [accepted_append, accepted]
  · rfl

theorem scan_accepted {W : Type} (env : Env W) (now : Time) (reqs : List Request)
    (acc : Scan W) : accepted (scan env now reqs acc).trace = accepted acc.trace := by
  induction reqs generalizing acc with
  | nil => rfl
  | cons r rest ih =>
    have hs : scan env now (r :: rest) acc = scan env now rest (rangeBody env now acc r) := rfl
    rw [hs, ih, rangeBody_accepted]

theorem iteration_accepted {W : Type} (env : Env W) (zone : Except String Location)
    (clock : Time) (st : Sys W) :
    accepted (iteration env zone clock st).trace = accepted st.trace := by
  cases zone with
  | error e => simp [iteration, accepted_append, accepted]
  | ok loc =>
    simp only [iteration, accepted_append, scan_accepted]
    simp [accepted]

/-- The store after a step depends on the store before, the step and the
library, and not on the network. -/
theorem step_store {W : Type} (env : Env W) (st : Sys W) (op : Op) :
    (step env st op).s.Requests = nextStore env st.s.Requests op := by
  cases op with
  | enqueue zone r => exact (scheduleRequest_spec env zone r st).1
  | iterate zone clock =>
    cases zone with
    | error e => rfl
    | ok loc => exact (tick_spec env loc clock st).1

theorem run_store {W : Type} (env : Env W) (ops : List Op) (st : Sys W) :
    (run env ops st).s.Requests = ops.foldl (nextStore env) st.s.Requests := by
  induction ops generalizing st with
  | nil => rfl
  | cons op rest ih =>
    have hr : run env (op :: rest) st = run env rest (step env st op) := rfl
    rw [hr, ih, step_store]
    rfl

/-- What a step does to the sent requests, the store and the count of accepted
requests, when `http.NewRequest` gives no error. -/
theorem step_items {W : Type} (env : Env W) (hnr : env.newRequestErr "POST" endpoint = none)
    (st : Sys W) (op : Op) :
    ∃ xs, sentItems (step env st op).trace = sentItems st.trace ++ xs ∧
      List.Perm (xs ++ (step env st op).s.Requests) (st.s.Requests ++ enqueuedBy env op) ∧
      accepted (step env st op).trace = accepted st.trace + (enqueuedBy env op).length := by
  cases op with
  | enqueue zone r =>
    obtain ⟨h1, h2, h3⟩ := scheduleRequest_spec env zone r st
    refine ⟨[], ?_, ?_, h3⟩
    · simp only [step, sentItems, h2, List.append_nil]
    · simp only [step, h1, List.nil_append]
      exact List.Perm.refl _
  | iterate zone clock =>
    refine ⟨sentItems (produced st (iteration env zone clock st)), ?_, ?_, ?_⟩
    · obtain ⟨es, h1, _⟩ := iteration_spec env zone clock st
      rw [produced_of_append st _ es h1]
      simp only [step]
      rw [h1, sentItems_append]
    · cases zone with
      | error e =>
        obtain ⟨h1, _, h3⟩ := iteration_error env e clock st
        simp only [step, h1, h3, enqueuedBy, List.append_nil]
        exact List.Perm.refl _
      | ok loc =>
        have hs : sentItems (produced st (tick env loc clock st))
            = st.s.Requests.filter (due clock) := by
          unfold sentItems
          rw [tick_sends, flatMap_sendsOf env clock hnr, List.map_map]
          exact List.map_id _
        have hr := (tick_spec env loc clock st).1
        simp only [step, enqueuedBy, List.append_nil]
        show List.Perm (sentItems (produced st (tick env loc clock st))
          ++ (tick env loc clock st).s.Requests) st.s.Requests
        rw [hs, hr]
        exact List.filter_append_perm (due clock) st.s.Requests
    · simp only [step, enqueuedBy, List.length_nil, Nat.add_zero]
      exact iteration_accepted env zone clock st

theorem run_items {W : Type} (env : Env W) (hnr : env.newRequestErr "POST" endpoint = none)
    (ops : List Op) (st : Sys W) :
    List.Perm (sentItems (run env ops st).trace ++ (run env ops st).s.Requests)
      (sentItems st.trace ++ st.s.Requests ++ ops.flatMap (enqueuedBy env)) ∧
    accepted (run env ops st).trace
      = accepted st.trace + (ops.flatMap (enqueuedBy env)).length := by
  induction ops generalizing st with
  | nil => simp [run]
  | cons op rest ih =>
    have hr : run env (op :: rest) st = run env rest (step env st op) := rfl
    obtain ⟨xs, h1, h2, h3⟩ := step_items env hnr st op
    obtain ⟨k1, k2⟩ := ih (step env st op)
    rw [hr]
    refine ⟨?_, ?_⟩
    · refine k1.trans ?_
      rw [h1, List.flatMap_cons]
      have : sentItems st.trace ++ xs ++ (step env st op).s.Requests
            ++ rest.flatMap (enqueuedBy env)
          = sentItems st.trace ++ ((xs ++ (step env st op).s.Requests)
            ++ rest.flatMap (enqueuedBy env)) := by simp
      rw [this]
      have : sentItems st.trace ++ st.s.Requests
            ++ (enqueuedBy env op ++ rest.flatMap (enqueuedBy env))
          = sentItems st.trace ++ ((st.s.Requests ++ enqueuedBy env op)
            ++ rest.flatMap (enqueuedBy env)) := by simp
      rw [this]
      exact (h2.append_right _).append_left _
    · rw [k2, h3, List.flatMap_cons, List.length_append]
      omega

theorem run_enqueues {W : Type} (env : Env W) (ops : List Op) (st : Sys W) :
    (run env (ops.filter Op.isEnqueue) st).s.Requests
      = st.s.Requests ++ ops.flatMap (enqueuedBy env) := by
  induction ops generalizing st with
  | nil => simp [run]
  | cons op rest ih =>
    cases op with
    | enqueue zone r =>
      have hr : run env ((Op.enqueue zone r :: rest).filter Op.isEnqueue) st
          = run env (rest.filter Op.isEnqueue) (scheduleRequest env zone r st) := rfl
      rw [hr, ih, (scheduleRequest_spec env zone r st).1, List.flatMap_cons, List.append_assoc]
    | iterate zone clock =>
      have hr : run env ((Op.iterate zone clock :: rest).filter Op.isEnqueue) st
          = run env (rest.filter Op.isEnqueue) st := rfl
      rw [hr, ih, List.flatMap_cons]
      rfl

/-! ## The dispatch tick -/

/-- C1. With `http.NewRequest` accepting the constant method and endpoint, a
dispatch tick calls `client.Do` exactly once for each stored request whose
`ScheduleAt` is at or before the clock reading (inclusive), in store order, with
the request posted for it (its encoded form as body); afterwards no request that
was due is in the store; a store holding the single request scheduled ten
seconds before the clock reading gives exactly one send and an empty store. -/
theorem tick_sends_each_due_once {W : Type} (env : Env W) (loc : Location) (clock : Time)
    (st : Sys W) (hnr : env.newRequestErr "POST" endpoint = none) :
    sends (produced st (tick env loc clock st))
      = (st.s.Requests.filter (fun r => decide (r.ScheduleAt.unixNano ≤ clock.unixNano))).map
          (fun r => (r, posted env r)) ∧
    (∀ r : Request, r.ScheduleAt.unixNano ≤ clock.unixNano →
      r ∉ (tick env loc clock st).s.Requests) ∧
    (∀ (data : Values) (l : Location),
      st.s.Requests = [{ Data := data, ScheduleAt := { unixNano := clock.unixNano - 10000000000, loc := l } }] →
      sends (produced st (tick env loc clock st))
        = [({ Data := data, ScheduleAt := { unixNano := clock.unixNano - 10000000000, loc := l } },
            posted env { Data := data, ScheduleAt := { unixNano := clock.unixNano - 10000000000, loc := l } })] ∧
      (tick env loc clock st).s.Requests = []) := by
  have hs : sends (produced st (tick env loc clock st))
      = (st.s.Requests.filter (due clock)).map (fun r => (r, posted env r)) := by
    rw [tick_sends, flatMap_sendsOf env clock hnr]
  have hr := (tick_spec env loc clock st).1
  refine ⟨hs, ?_, ?_⟩
  · intro r hle hmem
    rw [hr] at hmem
    have := (List.mem_filter.mp hmem).2
    rw [not_due_iff] at this
    omega
  · intro data l hst
    rw [hs, hr, hst]
    simp [due]

theorem tick_sends_each_due_once_witness :
    demoEnv.newRequestErr "POST" endpoint = none ∧
    sends (produced (demoSys [demoItem "a" (-10000000000), demoItem "b" 0, demoItem "c" 5])
        (tick demoEnv amsterdam noon (demoSys [demoItem "a" (-10000000000), demoItem "b" 0, demoItem "c" 5])))
      = [(demoItem "a" (-10000000000), posted demoEnv (demoItem "a" (-10000000000))),
         (demoItem "b" 0, posted demoEnv (demoItem "b" 0))] := by
  refine ⟨by decide, ?_⟩
  rw [(tick_sends_each_due_once demoEnv amsterdam noon
    (demoSys [demoItem "a" (-10000000000), demoItem "b" 0, demoItem "c" 5]) (by decide)).1]
  decide

/-- C2. A request whose `ScheduleAt` is strictly after the clock reading of every
one of a number of successive loop iterations is sent in none of them and, when
it was in the store, is still in the store after them; so for one dispatch
tick: it is not sent and it stays. -/
theorem future_request_stays {W : Type} (env : Env W)
    (ticks : List (Except String Location × Time)) (st : Sys W) (r : Request)
    (hbefore : ∀ zc ∈ ticks, zc.2.unixNano < r.ScheduleAt.unixNano) :
    r ∉ sentItems (produced st (loop env ticks st)) ∧
    (r ∈ st.s.Requests → r ∈ (loop env ticks st).s.Requests) ∧
    (∀ (loc : Location) (clock : Time), clock.unixNano < r.ScheduleAt.unixNano →
      r ∉ sentItems (produced st (tick env loc clock st)) ∧
      (r ∈ st.s.Requests → r ∈ (tick env loc clock st).s.Requests)) := by
  have key : ∀ ts : List (Except String Location × Time),
      (∀ zc ∈ ts, zc.2.unixNano < r.ScheduleAt.unixNano) →
      r ∉ sentItems (produced st (loop env ts st)) ∧
      (r ∈ st.s.Requests → r ∈ (loop env ts st).s.Requests) := by
    intro ts hts
    obtain ⟨es, h1, h2, h3⟩ := loop_spec env ts st
    have hnd : ∀ zc ∈ ts, due zc.2 r = false := by
      intro zc hz
      have := hts zc hz
      simp only [due, decide_eq_false_iff_not, not_le]
      exact this
    refine ⟨?_, fun hr => h3 r hr hnd⟩
    rw [produced_of_append st _ es h1]
    intro hmem
    obtain ⟨p, hp, hpr⟩ := List.mem_map.mp hmem
    obtain ⟨zc, hz, hd⟩ := h2 p hp
    rw [hpr, hnd zc hz] at hd
    exact Bool.noConfusion hd
  refine ⟨(key ticks hbefore).1, (key ticks hbefore).2, ?_⟩
  intro loc clock hlt
  have := key [(.ok loc, clock)] (by
    intro zc hz
    have hz2 : zc = (.ok loc, clock) := by simpa using hz
    subst hz2
    exact hlt)
  exact this

theorem future_request_stays_witness :
    (∀ zc ∈ [((.ok amsterdam : Except String Location), noon),
        (.error "unknown time zone Europe/Amsterdam", { noon with unixNano := noon.unixNano + 1000000000 }),
        (.ok amsterdam, { noon with unixNano := noon.unixNano + 2000000000 })],
      zc.2.unixNano < (demoItem "later" 3600000000000).ScheduleAt.unixNano) ∧
    demoItem "later" 3600000000000 ∉ sentItems (produced (demoSys [demoItem "later" 3600000000000])
      (loop demoEnv [((.ok amsterdam : Except String Location), noon),
        (.error "unknown time zone Europe/Amsterdam", { noon with unixNano := noon.unixNano + 1000000000 }),
        (.ok amsterdam, { noon with unixNano := noon.unixNano + 2000000000 })]
        (demoSys [demoItem "later" 3600000000000]))) :=
  ⟨by decide, (future_request_stays demoEnv _ (demoSys [demoItem "later" 3600000000000])
    (demoItem "later" 3600000000000) (by decide)).1⟩

/-- C3. Two dispatch ticks in succession at the same clock reading, with no
enqueue in between. The first tick dispatches the due requests: with
`http.NewRequest` accepting the constant method and endpoint it calls
`client.Do` exactly once for each stored request whose `ScheduleAt` is at or
before the clock reading, in store order, with the request posted for it, and
it leaves in the store exactly the requests scheduled strictly after the clock
reading. The second tick calls `client.Do` zero times and leaves the store
exactly as the first tick left it, so all the sends of the two ticks together
are those of the first: the due requests, once each. -/
theorem tick_twice_sends_due_once {W : Type} (env : Env W) (loc loc2 : Location)
    (clock : Time) (st : Sys W) :
    (env.newRequestErr "POST" endpoint = none →
      sends (produced st (tick env loc clock st))
        = (st.s.Requests.filter (fun r => decide (r.ScheduleAt.unixNano ≤ clock.unixNano))).map
            (fun r => (r, posted env r)) ∧
      sends (produced st (tick env loc2 clock (tick env loc clock st)))
        = (st.s.Requests.filter (fun r => decide (r.ScheduleAt.unixNano ≤ clock.unixNano))).map
            (fun r => (r, posted env r))) ∧
    (tick env loc clock st).s.Requests
      = st.s.Requests.filter (fun r => decide (clock.unixNano < r.ScheduleAt.unixNano)) ∧
    sends (produced (tick env loc clock st) (tick env loc2 clock (tick env loc clock st))) = [] ∧
    (tick env loc2 clock (tick env loc clock st)).s = (tick env loc clock st).s ∧
    sends (produced st (tick env loc2 clock (tick env loc clock st)))
      = sends (produced st (tick env loc clock st)) := by
  have h1 := (tick_spec env loc clock st).1
  have hnd : ∀ r ∈ (tick env loc clock st).s.Requests, due clock r = false := by
    intro r hr
    rw [h1] at hr
    simpa using (List.mem_filter.mp hr).2
  have hidle : sends (produced (tick env loc clock st)
      (tick env loc2 clock (tick env loc clock st))) = [] := by
    rw [tick_sends, flatMap_sendsOf_not_due env clock _ hnd]
  have hboth : sends (produced st (tick env loc2 clock (tick env loc clock st)))
      = sends (produced st (tick env loc clock st)) := by
    obtain ⟨es1, k1, _⟩ := iteration_spec env (.ok loc) clock st
    obtain ⟨es2, k2, _⟩ := iteration_spec env (.ok loc2) clock (tick env loc clock st)
    have k1 : (tick env loc clock st).trace = st.trace ++ es1 := k1
    have k2 : (tick env loc2 clock (tick env loc clock st)).trace
        = (tick env loc clock st).trace ++ es2 := k2
    rw [produced_trans st (tick env loc clock st) _ es1 es2 k1 k2, sends_append, hidle]
    simp
  refine ⟨?_, ?_, hidle, ?_, hboth⟩
  · intro hnr
    have hfirst : sends (produced st (tick env loc clock st))
        = (st.s.Requests.filter (due clock)).map (fun r => (r, posted env r)) := by
      rw [tick_sends, flatMap_sendsOf env clock hnr]
    exact ⟨hfirst, by rw [hboth]; exact hfirst⟩
  · rw [h1]
    congr 1
    funext r
    rw [Bool.eq_iff_iff, not_due_iff]
    simp
  · have h2 := (tick_spec env loc2 clock (tick env loc clock st)).1
    have h3 : (tick env loc clock st).s.Requests.filter (fun r => !due clock r)
        = (tick env loc clock st).s.Requests := by
      apply List.filter_eq_self.mpr
      intro r hr
      simp [hnd r hr]
    rw [h3] at h2
    exact scheduler_eq _ _ h2

theorem tick_twice_sends_due_once_witness :
    demoEnv.newRequestErr "POST" endpoint = none ∧
    sends (produced (demoSys [demoItem "a" (-1), demoItem "b" 9, demoItem "c" 0])
        (tick demoEnv amsterdam noon
          (demoSys [demoItem "a" (-1), demoItem "b" 9, demoItem "c" 0])))
      = [(demoItem "a" (-1), posted demoEnv (demoItem "a" (-1))),
         (demoItem "c" 0, posted demoEnv (demoItem "c" 0))] ∧
    sends (produced
        (tick demoEnv amsterdam noon (demoSys [demoItem "a" (-1), demoItem "b" 9, demoItem "c" 0]))
        (tick demoEnv amsterdam noon
          (tick demoEnv amsterdam noon
            (demoSys [demoItem "a" (-1), demoItem "b" 9, demoItem "c" 0])))) = [] := by
  refine ⟨by decide, ?_, ?_⟩
  · rw [((tick_twice_sends_due_once demoEnv amsterdam amsterdam noon
      (demoSys [demoItem "a" (-1), demoItem "b" 9, demoItem "c" 0])).1 (by decide)).1]
    decide
  · exact (tick_twice_sends_due_once demoEnv amsterdam amsterdam noon
      (demoSys [demoItem "a" (-1), demoItem "b" 9, demoItem "c" 0])).2.2.1

/-- C4. With `http.NewRequest` accepting the constant method and endpoint, and
whatever `client.Do` answers: the requests a dispatch tick sends are all the due
requests of the store; replacing the network by any other (other outcomes, other
world) changes neither the sends nor the store after the tick; and when the send
for a due request `a` fails in every state of the world, every due request `b`
of the store is nevertheless sent in that tick and is not in the store after. -/
theorem failures_do_not_spread {W V : Type} (env : Env W)
    (f : V → HttpRequest → Except String HttpResponse × V) (v : V)
    (loc : Location) (clock : Time) (st : Sys W)
    (hnr : env.newRequestErr "POST" endpoint = none) :
    sentItems (produced st (tick env loc clock st))
      = st.s.Requests.filter (fun r => decide (r.ScheduleAt.unixNano ≤ clock.unixNano)) ∧
    sends (produced (st.withWorld v) (tick (env.withClient f) loc clock (st.withWorld v)))
      = sends (produced st (tick env loc clock st)) ∧
    (tick (env.withClient f) loc clock (st.withWorld v)).s = (tick env loc clock st).s ∧
    (∀ a b : Request, a ∈ st.s.Requests → b ∈ st.s.Requests →
      a.ScheduleAt.unixNano ≤ clock.unixNano → b.ScheduleAt.unixNano ≤ clock.unixNano →
      (∀ w, ∃ err, (env.clientDo w (posted env a)).1 = .error err) →
      b ∈ sentItems (produced st (tick env loc clock st)) ∧
      b ∉ (tick env loc clock st).s.Requests) := by
  have hs : sentItems (produced st (tick env loc clock st)) = st.s.Requests.filter (due clock) := by
    unfold sentItems
    rw [tick_sends, flatMap_sendsOf env clock hnr, List.map_map]
    exact List.map_id _
  have hr := (tick_spec env loc clock st).1
  refine ⟨hs, ?_, ?_, ?_⟩
  · rw [tick_sends, tick_sends]
    rfl
  · have hr2 := (tick_spec (env.withClient f) loc clock (st.withWorld v)).1
    have hr3 : (tick (env.withClient f) loc clock (st.withWorld v)).s.Requests
        = (tick env loc clock st).s.Requests := by
      rw [hr2, hr]
      rfl
    cases h1 : (tick (env.withClient f) loc clock (st.withWorld v)).s with
    | mk reqs1 =>
      cases h2 : (tick env loc clock st).s with
      | mk reqs2 =>
        rw [h1, h2] at hr3
        simp only at hr3
        rw [hr3]
  · intro a b _ hb _ hdb _
    refine ⟨?_, ?_⟩
    · rw [hs]
      exact List.mem_filter.mpr ⟨hb, (due_iff clock b).mpr hdb⟩
    · intro hmem
      rw [hr] at hmem
      have := (List.mem_filter.mp hmem).2
      rw [not_due_iff] at this
      omega

theorem failures_do_not_spread_witness :
    refusingEnv.newRequestErr "POST" endpoint = none ∧
    (∀ w, ∃ err, (refusingEnv.clientDo w (posted refusingEnv (demoItem "a" (-5)))).1 = .error err) ∧
    demoItem "b" (-3) ∈ sentItems (produced (demoSys [demoItem "a" (-5), demoItem "b" (-3)])
      (tick refusingEnv amsterdam noon (demoSys [demoItem "a" (-5), demoItem "b" (-3)]))) ∧
    demoItem "b" (-3) ∉
      (tick refusingEnv amsterdam noon (demoSys [demoItem "a" (-5), demoItem "b" (-3)])).s.Requests :=
  ⟨by decide, fun _ => ⟨"connection refused", rfl⟩,
    (failures_do_not_spread refusingEnv demoEnv.clientDo 0 amsterdam noon
      (demoSys [demoItem "a" (-5), demoItem "b" (-3)]) (by decide)).2.2.2
      (demoItem "a" (-5)) (demoItem "b" (-3)) (by decide) (by decide) (by decide) (by decide)
      (fun _ => ⟨"connection refused", rfl⟩)⟩

/-! ## Runs -/

/-- C5. From the empty store, through any finite sequence of handler calls and
loop iterations (at any clock readings), with `http.NewRequest` accepting the
constant method and endpoint and whatever `client.Do` answers: the number of
calls to `client.Do` plus the number of stored requests equals the number of
requests the handler accepted; the sent requests followed by the stored ones
are a rearrangement of all the requests enqueued (the store the same handler
calls give with no iteration at all), so a request that was sent is neither
stored again nor sent again; and the store does not depend on the network. -/
theorem each_request_attempted_at_most_once {W V : Type} (env : Env W)
    (f : V → HttpRequest → Except String HttpResponse × V) (w : W) (v : V) (ops : List Op)
    (hnr : env.newRequestErr "POST" endpoint = none) :
    (sends (run env ops (Sys.init w)).trace).length + (run env ops (Sys.init w)).s.Requests.length
      = accepted (run env ops (Sys.init w)).trace ∧
    List.Perm
      (sentItems (run env ops (Sys.init w)).trace ++ (run env ops (Sys.init w)).s.Requests)
      (run env (ops.filter Op.isEnqueue) (Sys.init w)).s.Requests ∧
    (run (env.withClient f) ops (Sys.init v)).s = (run env ops (Sys.init w)).s := by
  obtain ⟨h1, h2⟩ := run_items env hnr ops (Sys.init w)
  have h3 := run_enqueues env ops (Sys.init w)
  have h1b : List.Perm
      (sentItems (run env ops (Sys.init w)).trace ++ (run env ops (Sys.init w)).s.Requests)
      (ops.flatMap (enqueuedBy env)) := by
    simpa [Sys.init, sentItems, sends] using h1
  refine ⟨?_, ?_, ?_⟩
  · have hl := h1b.length_eq
    rw [List.length_append] at hl
    have ha : accepted (run env ops (Sys.init w)).trace
        = (ops.flatMap (enqueuedBy env)).length := by
      simpa [Sys.init, accepted] using h2
    rw [ha, ← hl]
    simp [sentItems]
  · rw [h3]
    simpa [Sys.init] using h1b
  · apply scheduler_eq
    rw [run_store, run_store]
    have hn : nextStore (env.withClient f) = nextStore env := by
      funext reqs op
      cases op with
      | enqueue zone r => rfl
      | iterate zone clock => cases zone <;> rfl
    rw [hn]
    rfl

theorem each_request_attempted_at_most_once_witness :
    demoEnv.newRequestErr "POST" endpoint = none ∧
    (sends (run demoEnv
        [.enqueue (.ok amsterdam)
           { parseFormErr := none, Form := [("schedule_time", ["2024-01-01 00:00:00"])],
             PostForm := [("name", ["a"])] },
         .iterate (.ok amsterdam) noon,
         .enqueue (.ok amsterdam) brokenForm,
         .iterate (.ok amsterdam) noon] (Sys.init 0)).trace).length
      + (run demoEnv
        [.enqueue (.ok amsterdam)
           { parseFormErr := none, Form := [("schedule_time", ["2024-01-01 00:00:00"])],
             PostForm := [("name", ["a"])] },
         .iterate (.ok amsterdam) noon,
         .enqueue (.ok amsterdam) brokenForm,
         .iterate (.ok amsterdam) noon] (Sys.init 0)).s.Requests.length = 1 := by
  refine ⟨by decide, ?_⟩
  rw [(each_request_attempted_at_most_once demoEnv refusingEnv.clientDo 0 0 _ (by decide)).1]
  decide

/-! ## The handler -/

/-- C6, as stated, fails. The `schedule_time` of `brokenForm` parses, but
`r.ParseForm()` returned an error: the handler answers 500 and appends nothing. -/
theorem enqueue_stopped_by_form_error :
    demoEnv.parseInLocation layout (formValue brokenForm.Form "schedule_time") amsterdam
      = .ok { unixNano := 1704063600000000000, loc := amsterdam } ∧
    (scheduleRequest demoEnv (.ok amsterdam) brokenForm (demoSys [])).s.Requests = [] ∧
    (scheduleRequest demoEnv (.ok amsterdam) brokenForm (demoSys [])).s.Requests
      ≠ (demoSys []).s.Requests ++
          [{ Data := brokenForm.PostForm,
             ScheduleAt := { unixNano := 1704063600000000000, loc := amsterdam } }] ∧
    responses (produced (demoSys [])
        (scheduleRequest demoEnv (.ok amsterdam) brokenForm (demoSys [])))
      = [{ status := 500, body := "Internal Server Error\n" }] := by
  decide

/-- C6, amended. For every store and every request whose form parses
(`r.ParseForm()` returns no error) and whose `schedule_time` parses in the
resolved zone, whatever the parsed time, the handler leaves the store equal to
the previous store with exactly one request appended at the end, its `Data` the
posted form and its `ScheduleAt` the parsed time, and answers 200; so any number
of such calls in a row, with no loop iteration in between, extend the store by
as many requests, the previous ones unchanged in front. -/
theorem enqueue_appends_one {W : Type} (env : Env W) (loc : Location) (r : HttpIn)
    (st : Sys W) (t : Time) (hform : r.parseFormErr = none)
    (hparse : env.parseInLocation layout (formValue r.Form "schedule_time") loc = .ok t) :
    (scheduleRequest env (.ok loc) r st).s.Requests
      = st.s.Requests ++ [{ Data := r.PostForm, ScheduleAt := t }] ∧
    responses (produced st (scheduleRequest env (.ok loc) r st))
      = [{ status := 200, body := "Request scheduled successfully\n" }] ∧
    (∀ (rs : List (Location × HttpIn)) (st0 : Sys W),
      (∀ lr ∈ rs, lr.2.parseFormErr = none ∧
        ∃ t2, env.parseInLocation layout (formValue lr.2.Form "schedule_time") lr.1 = .ok t2) →
      ∃ items, (run env (rs.map (fun lr => Op.enqueue (.ok lr.1) lr.2)) st0).s.Requests
          = st0.s.Requests ++ items ∧ items.length = rs.length) := by
  refine ⟨?_, ?_, ?_⟩
  · simp [scheduleRequest, hform, hparse]
  · rw [produced_of_append st _ [.lock, .unlock,
      .respond { status := 200, body := "Request scheduled successfully\n" }]]
    · rfl
    · simp [scheduleRequest, hform, hparse]
  · intro rs
    induction rs with
    | nil => exact fun st0 _ => ⟨[], by simp [run], rfl⟩
    | cons lr rest ih =>
      intro st0 hall
      obtain ⟨hf, t2, ht2⟩ := hall lr (by simp)
      obtain ⟨items, h1, h2⟩ := ih (scheduleRequest env (.ok lr.1) lr.2 st0)
        (fun x hx => hall x (List.mem_cons_of_mem _ hx))
      refine ⟨{ Data := lr.2.PostForm, ScheduleAt := t2 } :: items, ?_, by simp [h2]⟩
      have hrun : run env ((lr :: rest).map (fun lr => Op.enqueue (.ok lr.1) lr.2)) st0
          = run env (rest.map (fun lr => Op.enqueue (.ok lr.1) lr.2))
              (scheduleRequest env (.ok lr.1) lr.2 st0) := rfl
      rw [hrun, h1]
      simp [scheduleRequest, hf, ht2]

theorem enqueue_appends_one_witness :
    ({ parseFormErr := none, Form := [("schedule_time", ["2024-01-01 00:00:00"])],
       PostForm := [("name", ["a"])] } : HttpIn).parseFormErr = none ∧
    demoEnv.parseInLocation layout
      (formValue [("schedule_time", ["2024-01-01 00:00:00"])] "schedule_time") amsterdam
      = .ok { unixNano := 1704063600000000000, loc := amsterdam } ∧
    (scheduleRequest demoEnv (.ok amsterdam)
        { parseFormErr := none, Form := [("schedule_time", ["2024-01-01 00:00:00"])],
          PostForm := [("name", ["a"])] } (demoSys [demoItem "z" 1])).s.Requests
      = (demoSys [demoItem "z" 1]).s.Requests ++
          [{ Data := [("name", ["a"])],
             ScheduleAt := { unixNano := 1704063600000000000, loc := amsterdam } }] :=
  ⟨rfl, by decide,
    (enqueue_appends_one demoEnv amsterdam
      { parseFormErr := none, Form := [("schedule_time", ["2024-01-01 00:00:00"])],
        PostForm := [("name", ["a"])] } (demoSys [demoItem "z" 1])
      { unixNano := 1704063600000000000, loc := amsterdam } rfl (by decide)).1⟩

/-- C7, as stated, fails. `brokenEmptyForm` has no `schedule_time` (the handler
reads the empty string, which does not parse), but `r.ParseForm()` returned an
error: the handler answers 500, not 400. -/
theorem missing_time_answered_500 :
    brokenEmptyForm.Form.lookup "schedule_time" = none ∧
    demoEnv.parseInLocation layout (formValue brokenEmptyForm.Form "schedule_time") amsterdam
      = .error "cannot parse " ∧
    responses (produced (demoSys [])
        (scheduleRequest demoEnv (.ok amsterdam) brokenEmptyForm (demoSys [])))
      = [{ status := 500, body := "Internal Server Error\n" }] ∧
    (responses (produced (demoSys [])
        (scheduleRequest demoEnv (.ok amsterdam) brokenEmptyForm (demoSys [])))).map HttpOut.status
      ≠ [400] := by
  decide

/-- C7, amended. For every request whose form parses, once the zone has
resolved: when its `schedule_time` does not parse with the layout in that zone
(for a missing field the handler parses the empty string), the handler answers
400 and leaves the store exactly as it was. For every request whatsoever: the
handler changes the store only if the form parsed, the zone resolved and the
`schedule_time` parsed. -/
theorem bad_schedule_time_rejected {W : Type} (env : Env W) (loc : Location) (r : HttpIn)
    (st : Sys W) (err : String) (hform : r.parseFormErr = none)
    (hparse : env.parseInLocation layout (formValue r.Form "schedule_time") loc = .error err) :
    responses (produced st (scheduleRequest env (.ok loc) r st))
      = [{ status := 400, body := "Invalid schedule time\n" }] ∧
    (scheduleRequest env (.ok loc) r st).s = st.s ∧
    (r.Form.lookup "schedule_time" = none → formValue r.Form "schedule_time" = "") ∧
    (∀ (zone : Except String Location) (r2 : HttpIn) (st2 : Sys W),
      (scheduleRequest env zone r2 st2).s ≠ st2.s →
      r2.parseFormErr = none ∧ ∃ loc2 t, zone = .ok loc2 ∧
        env.parseInLocation layout (formValue r2.Form "schedule_time") loc2 = .ok t) := by
  refine ⟨?_, ?_, ?_, ?_⟩
  · rw [produced_of_append st _ [.log ("Failed to parse schedule time: " ++ err),
      .respond { status := 400, body := "Invalid schedule time\n" }]]
    · rfl
    · simp [scheduleRequest, hform, hparse]
  · simp [scheduleRequest, hform, hparse]
  · intro hmiss
    simp [formValue, hmiss]
  · intro zone r2 st2 hne
    cases hf : r2.parseFormErr with
    | some e => exact absurd (by simp [scheduleRequest, hf]) hne
    | none =>
      cases zone with
      | error e => exact absurd (by simp [scheduleRequest, hf]) hne
      | ok loc2 =>
        cases hp : env.parseInLocation layout (formValue r2.Form "schedule_time") loc2 with
        | error e => exact absurd (by simp [scheduleRequest, hf, hp]) hne
        | ok t => exact ⟨rfl, loc2, t, rfl, hp⟩

theorem bad_schedule_time_rejected_witness :
    ({ parseFormErr := none, Form := [("schedule_time", ["tomorrow"])],
       PostForm := [("schedule_time", ["tomorrow"])] } : HttpIn).parseFormErr = none ∧
    demoEnv.parseInLocation layout (formValue [("schedule_time", ["tomorrow"])] "schedule_time")
      amsterdam = .error "cannot parse tomorrow" ∧
    responses (produced (demoSys [demoItem "z" 1]) (scheduleRequest demoEnv (.ok amsterdam)
        { parseFormErr := none, Form := [("schedule_time", ["tomorrow"])],
          PostForm := [("schedule_time", ["tomorrow"])] } (demoSys [demoItem "z" 1])))
      = [{ status := 400, body := "Invalid schedule time\n" }] :=
  ⟨rfl, by decide,
    (bad_schedule_time_rejected demoEnv amsterdam
      { parseFormErr := none, Form := [("schedule_time", ["tomorrow"])],
        PostForm := [("schedule_time", ["tomorrow"])] } (demoSys [demoItem "z" 1])
      "cannot parse tomorrow" rfl (by decide)).1⟩

/-! ## The lock, the zone, the order of the store -/

/-- C8, as stated, fails. A store with one due request: the tick takes the lock,
calls `client.Do`, logs the outcome and only then releases the lock, so the send
happens while the lock is held. -/
theorem send_under_lock_example :
    produced (demoSys [demoItem "a" 0]) (tick demoEnv amsterdam noon (demoSys [demoItem "a" 0]))
      = [.sleep, .lock, .send (demoItem "a" 0) (posted demoEnv (demoItem "a" 0)),
         .log "Request failed: connection refused", .unlock] ∧
    noSendUnderLock false
      (produced (demoSys [demoItem "a" 0]) (tick demoEnv amsterdam noon (demoSys [demoItem "a" 0])))
      = false := by
  decide

/-- C8, amended. A dispatch tick sleeps, takes the lock once, runs the scan
without taking or releasing the lock, and releases the lock once at the end,
after the scan; every call to `client.Do` of the tick is made in between, while
the lock is held, so whenever the tick sends at all a send happens under the
lock. -/
theorem sends_happen_under_lock {W : Type} (env : Env W) (loc : Location) (clock : Time)
    (st : Sys W) :
    (∃ es, produced st (tick env loc clock st) = .sleep :: .lock :: (es ++ [.unlock]) ∧
      (∀ e ∈ es, e ≠ .lock ∧ e ≠ .unlock) ∧
      sends es = sends (produced st (tick env loc clock st))) ∧
    allSendsUnderLock false (produced st (tick env loc clock st)) = true ∧
    (sends (produced st (tick env loc clock st)) ≠ [] →
      noSendUnderLock false (produced st (tick env loc clock st)) = false) := by
  obtain ⟨_, es, h2, h3, h4⟩ := tick_spec env loc clock st
  have hs := tick_sends env loc clock st
  refine ⟨⟨es, h2, ?_, by rw [h3, hs]⟩, ?_, ?_⟩
  · intro e he
    have := h4 e he
    constructor <;> (intro hc; subst hc; simp [Event.lockFree] at this)
  · rw [h2]
    simp only [allSendsUnderLock]
    rw [allSendsUnderLock_held es _ h4]
    rfl
  · intro hne
    rw [h2]
    simp only [noSendUnderLock]
    rw [noSendUnderLock_held es _ h4, h3, ← hs]
    cases hq : sends (produced st (tick env loc clock st)) with
    | nil => exact absurd hq hne
    | cons p ps => rfl

theorem sends_happen_under_lock_witness :
    sends (produced (demoSys [demoItem "a" (-2), demoItem "b" 4])
      (tick refusingEnv amsterdam noon (demoSys [demoItem "a" (-2), demoItem "b" 4]))) ≠ [] ∧
    noSendUnderLock false (produced (demoSys [demoItem "a" (-2), demoItem "b" 4])
      (tick refusingEnv amsterdam noon (demoSys [demoItem "a" (-2), demoItem "b" 4]))) = false :=
  ⟨by decide,
    (sends_happen_under_lock refusingEnv amsterdam noon
      (demoSys [demoItem "a" (-2), demoItem "b" 4])).2.2 (by decide)⟩

/-- C9. When the zone does not resolve in a loop iteration, the iteration calls
`client.Do` zero times and leaves the store and the world as they were, due
requests included; the loop goes on with the next iteration, and a dispatch tick
after the skipped iteration sends what it would have sent, and leaves the store
and the world it would have left, without the skipped iteration. -/
theorem zone_failure_skips_tick {W : Type} (env : Env W) (err : String) (clock0 : Time)
    (st : Sys W) :
    sends (produced st (iteration env (.error err) clock0 st)) = [] ∧
    (iteration env (.error err) clock0 st).s = st.s ∧
    (iteration env (.error err) clock0 st).world = st.world ∧
    (∀ rest, loop env ((.error err, clock0) :: rest) st
      = loop env rest (iteration env (.error err) clock0 st)) ∧
    (∀ (loc : Location) (clock : Time),
      sends (produced (iteration env (.error err) clock0 st)
          (tick env loc clock (iteration env (.error err) clock0 st)))
        = sends (produced st (tick env loc clock st)) ∧
      (tick env loc clock (iteration env (.error err) clock0 st)).s = (tick env loc clock st).s ∧
      (tick env loc clock (iteration env (.error err) clock0 st)).world
        = (tick env loc clock st).world) := by
  obtain ⟨h1, h2, h3⟩ := iteration_error env err clock0 st
  refine ⟨by rw [h3]; rfl, h1, h2, fun _ => rfl, ?_⟩
  intro loc clock
  refine ⟨?_, ?_, ?_⟩
  · rw [tick_sends, tick_sends, h1]
  · have k1 := (tick_spec env loc clock (iteration env (.error err) clock0 st)).1
    have k2 := (tick_spec env loc clock st).1
    rw [h1] at k1
    cases e1 : (tick env loc clock (iteration env (.error err) clock0 st)).s with
    | mk reqs1 =>
      cases e2 : (tick env loc clock st).s with
      | mk reqs2 =>
        rw [e1] at k1
        rw [e2] at k2
        simp only at k1 k2
        rw [k1, k2]
  · exact scan_world env (clock.In loc) st.s.Requests _ _ rfl

/-- C10. After a dispatch tick the store is exactly the sub-list of the previous
store made of the requests whose `ScheduleAt` is strictly after the clock
reading, unchanged and in the same order; with `http.NewRequest` accepting the
constant method and endpoint, the requests sent are the others, in store order,
so the sent requests followed by the retained ones are a rearrangement of the
previous store. -/
theorem tick_retains_future_in_order {W : Type} (env : Env W) (loc : Location) (clock : Time)
    (st : Sys W) (hnr : env.newRequestErr "POST" endpoint = none) :
    (tick env loc clock st).s.Requests
      = st.s.Requests.filter (fun r => decide (clock.unixNano < r.ScheduleAt.unixNano)) ∧
    sentItems (produced st (tick env loc clock st))
      = st.s.Requests.filter (fun r => decide (r.ScheduleAt.unixNano ≤ clock.unixNano)) ∧
    List.Perm (sentItems (produced st (tick env loc clock st)) ++ (tick env loc clock st).s.Requests)
      st.s.Requests := by
  have hs : sentItems (produced st (tick env loc clock st)) = st.s.Requests.filter (due clock) := by
    unfold sentItems
    rw [tick_sends, flatMap_sendsOf env clock hnr, List.map_map]
    exact List.map_id _
  have hr := (tick_spec env loc clock st).1
  refine ⟨?_, hs, ?_⟩
  · rw [hr]
    congr 1
    funext r
    rw [Bool.eq_iff_iff, not_due_iff]
    simp
  · rw [hs, hr]
    exact List.filter_append_perm (due clock) st.s.Requests

theorem tick_retains_future_in_order_witness :
    demoEnv.newRequestErr "POST" endpoint = none ∧
    (tick demoEnv amsterdam noon
        (demoSys [demoItem "a" 7, demoItem "b" (-1), demoItem "c" 0, demoItem "d" 1])).s.Requests
      = [demoItem "a" 7, demoItem "d" 1] := by
  refine ⟨by decide, ?_⟩
  rw [(tick_retains_future_in_order demoEnv amsterdam noon
    (demoSys [demoItem "a" 7, demoItem "b" (-1), demoItem "c" 0, demoItem "d" 1]) (by decide)).1]
  decide

end Registrator
